import Mathlib

set_option maxRecDepth 4000

/-!
Verification development for the A2UI protocol core
(libs/a2ui-core/src/utils.ts and libs/a2ui-core/src/schema.ts).

JavaScript runtime values are modelled by the inductive `JVal`
(numbers are modelled as integers; the claims under study never involve
fractional numbers). Absent object fields and the JavaScript value
`undefined` are both modelled by `JVal.undefined` / `Option.none`;
JavaScript objects are modelled as association lists whose lookup takes
the first matching key (parsed JSON objects have unique keys).
-/

/-- A JavaScript runtime value (JSON values plus `undefined`). -/
inductive JVal where
  | undefined : JVal
  | null : JVal
  | bool (b : Bool) : JVal
  | num (n : Int) : JVal
  | str (s : String) : JVal
  | arr (elems : List JVal) : JVal
  | obj (fields : List (String × JVal)) : JVal

/-- JavaScript truthiness (`Boolean(v)`); `0`, `""`, `null`, `undefined`
and `false` are falsy, every other value is truthy. -/
def truthy : JVal → Bool
  | JVal.undefined => false
  | JVal.null => false
  | JVal.bool b => b
  | JVal.num n => n != 0
  | JVal.str s => s != ""
  | JVal.arr _ => true
  | JVal.obj _ => true

/-- Whether `typeof v === "object"` holds (true for objects, arrays and
`null`). -/
def typeofObject : JVal → Bool
  | JVal.null => true
  | JVal.arr _ => true
  | JVal.obj _ => true
  | _ => false

/-- Decimal digits to a natural number. -/
def digitsToNat (ds : List Char) : Nat :=
  ds.foldl (fun acc c => 10 * acc + (c.toNat - 48)) 0

/-- Whether a string is a canonical array index key (`"0"`, or digits
without a leading zero). -/
def isCanonicalIndex : List Char → Bool
  | [] => false
  | ['0'] => true
  | c :: rest => c.isDigit && c ≠ '0' && rest.all Char.isDigit

/-- Property access `v[key]`: association-list lookup on objects, index
lookup on arrays (for a canonical index key), `undefined` otherwise
(the callers under study only index objects and arrays). -/
def getField (v : JVal) (key : String) : JVal :=
  match v with
  | JVal.obj fields => (List.lookup key fields).getD JVal.undefined
  | JVal.arr elems =>
    if isCanonicalIndex key.data then
      (elems.get? (digitsToNat key.data)).getD JVal.undefined
    else JVal.undefined
  | _ => JVal.undefined

/-- Whether `key in v` holds for an object value. -/
def hasField (v : JVal) (key : String) : Bool :=
  match v with
  | JVal.obj fields => (List.lookup key fields).isSome
  | _ => false

/-- Assignment of a field in an object literal: replaces the value at the
first occurrence of the key, appends the binding when the key is absent. -/
def objSet : List (String × JVal) → String → JVal → List (String × JVal)
  | [], k, v => [(k, v)]
  | (k0, v0) :: rest, k, v =>
    if k0 = k then (k0, v) :: rest else (k0, v0) :: objSet rest k v

/-- Spread `{...old, ...patch}` of two field lists: later keys win. -/
def objMergeFields (old patch : List (String × JVal)) : List (String × JVal) :=
  patch.foldl (fun acc kv => objSet acc kv.1 kv.2) old

/-- Own enumerable properties of a value, as used by object spread
`{...v}`: the fields of an object, indexed entries for arrays and
strings, nothing for primitives. -/
def jsSpread : JVal → List (String × JVal)
  | JVal.obj fields => fields
  | JVal.arr elems => (elems.enum).map (fun p => (toString p.1, p.2))
  | JVal.str s => (s.data.enum).map (fun p => (toString p.1, JVal.str (String.mk [p.2])))
  | _ => []

/-- JavaScript `a || b`. -/
def jsOr (a b : JVal) : JVal :=
  if truthy a then a else b

/-- Split a string at every `.` character, mirroring
`path.split(".")` (an empty string yields `[""]`). -/
def splitDotGo : List Char → List Char → List String
  | acc, [] => [String.mk acc.reverse]
  | acc, c :: cs =>
    if c = '.' then String.mk acc.reverse :: splitDotGo [] cs
    else splitDotGo (c :: acc) cs

/-- `path.split(".")`. -/
def splitDot (s : String) : List String :=
  splitDotGo [] s.data

/-!
## The data model (types.ts)

The file `libs/a2ui-core/src/types.ts` is not among the provided
sources; the shapes below follow the specification.
-/

/-- Modelled from the spec: the Component node shape from the missing
`types.ts` (`id`, `type`, `props`, `children`, `events`, `bindings`,
`when`). Every field is optional so that the same structure also models
the partial component payload of an update and the result of the
`as A2UIComponent` cast in the replace operation; `whenExpr` models the
`when` field. -/
structure A2UIComponent where
  id : Option String
  type : Option String
  props : Option (List (String × JVal))
  children : Option (List String)
  events : Option JVal
  bindings : Option JVal
  whenExpr : Option String

/-- Modelled from the spec: the Response shape from the missing
`types.ts` (`version`, `root`, `components`, optional `data`, optional
`meta`). -/
structure A2UIResponse where
  version : String
  root : String
  components : List A2UIComponent
  data : Option (List (String × JVal))
  meta : Option JVal

/-- Modelled from the spec: the update operation tag, one of
`add`, `remove`, `update`, `replace`. -/
inductive A2UIOperation where
  | add : A2UIOperation
  | remove : A2UIOperation
  | update : A2UIOperation
  | replace : A2UIOperation
deriving DecidableEq

/-- Modelled from the spec: the Update shape from the missing `types.ts`
(`operation`, `targetId`, optional partial `component`, optional `data`). -/
structure A2UIUpdate where
  operation : A2UIOperation
  targetId : String
  component : Option A2UIComponent
  data : Option (List (String × JVal))

/-!
## utils.ts: findComponent, applyUpdate, applyUpdates
-/

/-- Overriding field combination used by object spread on component
records: the patch field wins when present. -/
def ov {α : Type} (patch existing : Option α) : Option α :=
  match patch with
  | some x => some x
  | none => existing

/-- `{...c, ...p}` on component records (the `update` operation):
every field present in the patch overrides the existing field. -/
def spreadMerge (c p : A2UIComponent) : A2UIComponent :=
  ⟨ov p.id c.id, ov p.type c.type, ov p.props c.props, ov p.children c.children,
   ov p.events c.events, ov p.bindings c.bindings, ov p.whenExpr c.whenExpr⟩

/-- `{id: c.id, ...p}` on component records (the `replace` operation):
only the id is seeded from the existing component, and even it is
overridden when the patch carries an id. -/
def replaceWith (c p : A2UIComponent) : A2UIComponent :=
  ⟨ov p.id c.id, p.type, p.props, p.children, p.events, p.bindings, p.whenExpr⟩

/-- The children scrub performed by the `remove` operation:
`{...c, children: c.children.filter(id => id !== targetId)}` when
`c.children` includes the target, `c` unchanged otherwise. -/
def scrubChildren (targetId : String) (c : A2UIComponent) : A2UIComponent :=
  match c.children with
  | some ch =>
    if targetId ∈ ch then
      ⟨c.id, c.type, c.props, some (ch.filter (fun i => i ≠ targetId)),
       c.events, c.bindings, c.whenExpr⟩
    else c
  | none => c

/-- `findComponent` from utils.ts: first component whose id strictly
equals the given id. -/
def findComponent (response : A2UIResponse) (id : String) : Option A2UIComponent :=
  response.components.find? (fun c => c.id = some id)

/-- `getComponentIds` from utils.ts (declared ids, in order; an absent id
surfaces as `none`). -/
def getComponentIds (response : A2UIResponse) : List (Option String) :=
  response.components.map (fun c => c.id)

/-- `applyUpdate` from utils.ts: spreads the response into a fresh
record, rebuilds `components` according to the operation, then
shallow-merges `update.data` into `response.data` when present. -/
def applyUpdate (response : A2UIResponse) (update : A2UIUpdate) : A2UIResponse :=
  let comps : List A2UIComponent :=
    match update.operation with
    | A2UIOperation.add =>
      match update.component with
      | some c => response.components ++ [c]
      | none => response.components
    | A2UIOperation.remove =>
      (response.components.filter (fun c => c.id ≠ some update.targetId)).map
        (scrubChildren update.targetId)
    | A2UIOperation.update =>
      response.components.map (fun c =>
        if c.id = some update.targetId then
          match update.component with
          | some p => spreadMerge c p
          | none => c
        else c)
    | A2UIOperation.replace =>
      response.components.map (fun c =>
        if c.id = some update.targetId then
          match update.component with
          | some p => replaceWith c p
          | none => c
        else c)
  let newData : Option (List (String × JVal)) :=
    match update.data with
    | some d => some (objMergeFields (response.data.getD []) d)
    | none => response.data
  ⟨response.version, response.root, comps, newData, response.meta⟩

/-- `applyUpdates` from utils.ts: left fold of `applyUpdate`. -/
def applyUpdates (response : A2UIResponse) (updates : List A2UIUpdate) : A2UIResponse :=
  updates.foldl applyUpdate response

/-!
## utils.ts: resolveBinding and setBinding
-/

/-- Whether a value is `null` or `undefined`. -/
def isNullOrUndef : JVal → Bool
  | JVal.null => true
  | JVal.undefined => true
  | _ => false

/-- The loop body of `resolveBinding`: walk the remaining path segments,
returning `undefined` as soon as the current value is `null`/`undefined`
or not of object type. -/
def resolveParts : JVal → List String → JVal
  | cur, [] => cur
  | cur, p :: rest =>
    if isNullOrUndef cur then JVal.undefined
    else if typeofObject cur then resolveParts (getField cur p) rest
    else JVal.undefined

/-- `resolveBinding` from utils.ts: split the path on `.` and walk the
data mapping. -/
def resolveBinding (data : List (String × JVal)) (path : String) : JVal :=
  resolveParts (JVal.obj data) (splitDot path)

/-- The recursion of `setBinding` over the split path segments: a single
segment writes the key at the top level, several segments recurse into
`data[first] || {}`. -/
def setBindingGo (data : JVal) : List String → JVal → List (String × JVal)
  | [], _ => jsSpread data
  | [p], v => objSet (jsSpread data) p v
  | first :: rest, v =>
    objSet (jsSpread data) first
      (JVal.obj (setBindingGo (jsOr (getField data first) (JVal.obj [])) rest v))

/-- `setBinding` from utils.ts: immutable nested write at a dotted path. -/
def setBinding (data : List (String × JVal)) (path : String) (value : JVal) :
    List (String × JVal) :=
  setBindingGo (JVal.obj data) (splitDot path) value

theorem sanity_setBinding_empty :
    setBinding [] "a.b" (JVal.num 5) = [("a", JVal.obj [("b", JVal.num 5)])] := rfl

theorem sanity_resolveBinding_missing :
    resolveBinding [] "missing.path" = JVal.undefined := rfl

/-!
## utils.ts: evaluateCondition

The evaluator first substitutes every occurrence of `data.<dotted.path>`
in the condition text by the JSON serialization of the resolved value,
then dispatches on the first operator found among `===`, `!==`, `&&`,
`||`, and finally falls back to a truthiness lookup. Any thrown parse
failure is caught and mapped to `true`. The JavaScript builtins
`JSON.stringify` and `JSON.parse` are modelled below; numbers are
modelled as integers, so the parser rejects fractional or exponent
literals (no claim under study involves them).
-/

/-- Strict equality `===` between two freshly produced values: value
equality on primitives; two distinct object or array references are
never strictly equal, and both operand positions in this development
(freshly parsed JSON values, Set keys of a JSON tree) always hold
distinct references, so object and array operands compare false. The
same function models the SameValueZero test of `Set#has` (the two
coincide here because the integer number model has no NaN or negative
zero). -/
def jsStrictEq : JVal → JVal → Bool
  | JVal.undefined, JVal.undefined => true
  | JVal.null, JVal.null => true
  | JVal.bool a, JVal.bool b => a == b
  | JVal.num a, JVal.num b => a == b
  | JVal.str a, JVal.str b => a == b
  | _, _ => false

/-- JSON string quoting of one character. -/
def quoteChar (c : Char) : List Char :=
  if c = '"' then ['\\', '"']
  else if c = '\\' then ['\\', '\\']
  else if c = '\n' then ['\\', 'n']
  else if c = '\t' then ['\\', 't']
  else if c = '\r' then ['\\', 'r']
  else [c]

/-- JSON string quoting, as produced by `JSON.stringify` on a string. -/
def quoteJson (s : String) : String :=
  "\"" ++ String.mk (s.data.flatMap quoteChar) ++ "\""

mutual
/-- `JSON.stringify`: `none` models the `undefined` result (for an
`undefined` argument). -/
def jsonStringify : JVal → Option String
  | JVal.undefined => none
  | JVal.null => some "null"
  | JVal.bool b => some (cond b "true" "false")
  | JVal.num n => some (toString n)
  | JVal.str s => some (quoteJson s)
  | JVal.arr xs => some ("[" ++ String.intercalate "," (stringifyElems xs) ++ "]")
  | JVal.obj fs => some ("\x7b" ++ String.intercalate "," (stringifyMembers fs) ++ "\x7d")

/-- Array elements under `JSON.stringify`; an `undefined` element
serializes as `null`. -/
def stringifyElems : List JVal → List String
  | [] => []
  | x :: xs => ((jsonStringify x).getD "null") :: stringifyElems xs

/-- Object members under `JSON.stringify`; an `undefined`-valued field
is omitted. -/
def stringifyMembers : List (String × JVal) → List String
  | [] => []
  | (k, v) :: rest =>
    match jsonStringify v with
    | some sv => (quoteJson k ++ ":" ++ sv) :: stringifyMembers rest
    | none => stringifyMembers rest
end

/-- JSON whitespace. -/
def isWs (c : Char) : Bool :=
  c = ' ' || c = '\t' || c = '\n' || c = '\r'

/-- Drop leading JSON whitespace. -/
def skipWs : List Char → List Char
  | [] => []
  | c :: cs => if isWs c then skipWs cs else c :: cs

/-- Take a maximal run of decimal digits. -/
def takeDigits : List Char → List Char × List Char
  | [] => ([], [])
  | c :: cs =>
    if c.isDigit then
      let p := takeDigits cs
      (c :: p.1, p.2)
    else ([], c :: cs)

/-- Whether a character is a hexadecimal digit. -/
def isHexChar (c : Char) : Bool :=
  c.isDigit || ('a' ≤ c && c ≤ 'f') || ('A' ≤ c && c ≤ 'F')

/-- After the digits of an integer literal, a fractional or exponent
marker is rejected by this integer-valued model. -/
def numberTailOk (rest : List Char) : Bool :=
  match rest with
  | [] => true
  | c :: _ => !(c = '.' || c = 'e' || c = 'E')

/-- Parse the body of a JSON string literal, after the opening quote;
the fuel argument is bounded below by the remaining input length. -/
def parseStrBody : Nat → List Char → Except Unit (List Char × List Char)
  | 0, _ => Except.error ()
  | _ + 1, [] => Except.error ()
  | fuel + 1, c :: cs =>
    if c = '"' then Except.ok ([], cs)
    else if c = '\\' then
      match cs with
      | [] => Except.error ()
      | e :: rest =>
        let esc : Except Unit (Char × List Char) :=
          if e = '"' then Except.ok ('"', rest)
          else if e = '\\' then Except.ok ('\\', rest)
          else if e = '/' then Except.ok ('/', rest)
          else if e = 'n' then Except.ok ('\n', rest)
          else if e = 't' then Except.ok ('\t', rest)
          else if e = 'r' then Except.ok ('\r', rest)
          else if e = 'b' then Except.ok (Char.ofNat 8, rest)
          else if e = 'f' then Except.ok (Char.ofNat 12, rest)
          else if e = 'u' then
            match rest with
            | h1 :: h2 :: h3 :: h4 :: rest2 =>
              if isHexChar h1 && isHexChar h2 && isHexChar h3 && isHexChar h4 then
                let hv : Char → Nat := fun h =>
                  if h.isDigit then h.toNat - 48
                  else if h.toNat ≥ 97 then h.toNat - 87 else h.toNat - 55
                Except.ok (Char.ofNat (((hv h1 * 16 + hv h2) * 16 + hv h3) * 16 + hv h4), rest2)
              else Except.error ()
            | _ => Except.error ()
          else Except.error ()
        match esc with
        | Except.ok (ch, rest2) => do
          let p ← parseStrBody fuel rest2
          Except.ok (ch :: p.1, p.2)
        | Except.error _ => Except.error ()
    else do
      let p ← parseStrBody fuel cs
      Except.ok (c :: p.1, p.2)

mutual
/-- Recursive-descent model of `JSON.parse` on a character list; the
fuel argument is bounded below by twice the remaining input length, so
it never runs out on the initial budget. Fractional and exponent
number literals are rejected (integers model all numbers under study). -/
def parseValue : Nat → List Char → Except Unit (JVal × List Char)
  | 0, _ => Except.error ()
  | fuel + 1, input =>
    match skipWs input with
    | [] => Except.error ()
    | 't' :: 'r' :: 'u' :: 'e' :: rest => Except.ok (JVal.bool true, rest)
    | 'f' :: 'a' :: 'l' :: 's' :: 'e' :: rest => Except.ok (JVal.bool false, rest)
    | 'n' :: 'u' :: 'l' :: 'l' :: rest => Except.ok (JVal.null, rest)
    | '"' :: rest => do
      let p ← parseStrBody (rest.length + 1) rest
      Except.ok (JVal.str (String.mk p.1), p.2)
    | '[' :: rest =>
      (match skipWs rest with
       | ']' :: rest2 => Except.ok (JVal.arr [], rest2)
       | other => do
         let p ← parseArrRest fuel other
         Except.ok (JVal.arr p.1, p.2))
    | '{' :: rest =>
      (match skipWs rest with
       | '}' :: rest2 => Except.ok (JVal.obj [], rest2)
       | other => do
         let p ← parseObjRest fuel other
         Except.ok (JVal.obj p.1, p.2))
    | '-' :: rest =>
      (match takeDigits rest with
       | ([], _) => Except.error ()
       | (ds, rest2) =>
         if numberTailOk rest2 then
           Except.ok (JVal.num (-(Int.ofNat (digitsToNat ds))), rest2)
         else Except.error ())
    | c :: rest =>
      if c.isDigit then
        match takeDigits (c :: rest) with
        | (ds, rest2) =>
          if numberTailOk rest2 then
            Except.ok (JVal.num (Int.ofNat (digitsToNat ds)), rest2)
          else Except.error ()
      else Except.error ()

/-- One or more comma-separated array elements followed by `]`. -/
def parseArrRest : Nat → List Char → Except Unit (List JVal × List Char)
  | 0, _ => Except.error ()
  | fuel + 1, input => do
    let p ← parseValue fuel input
    match skipWs p.2 with
    | ',' :: rest => do
      let q ← parseArrRest fuel rest
      Except.ok (p.1 :: q.1, q.2)
    | ']' :: rest => Except.ok ([p.1], rest)
    | _ => Except.error ()

/-- One or more comma-separated object members followed by the closing
brace. -/
def parseObjRest : Nat → List Char → Except Unit (List (String × JVal) × List Char)
  | 0, _ => Except.error ()
  | fuel + 1, input =>
    match skipWs input with
    | '"' :: rest => do
      let k ← parseStrBody (rest.length + 1) rest
      match skipWs k.2 with
      | ':' :: rest2 => do
        let p ← parseValue fuel rest2
        match skipWs p.2 with
        | ',' :: rest3 => do
          let q ← parseObjRest fuel rest3
          Except.ok ((String.mk k.1, p.1) :: q.1, q.2)
        | '}' :: rest3 => Except.ok ([(String.mk k.1, p.1)], rest3)
        | _ => Except.error ()
      | _ => Except.error ()
    | _ => Except.error ()
end

/-- `JSON.parse`: parse one value and require only whitespace after it. -/
def jsonParse (s : String) : Except Unit JVal :=
  match parseValue (2 * s.data.length + 2) s.data with
  | Except.ok (v, rest) =>
    if (skipWs rest).isEmpty then Except.ok v else Except.error ()
  | Except.error _ => Except.error ()

/-- A word character of the regular expression `\w` (ASCII letters,
digits, underscore). -/
def isWordChar (c : Char) : Bool :=
  c.isAlphanum || c = '_'

/-- Take a maximal run of word characters (`\w+`). -/
def takeWordChars : List Char → List Char × List Char
  | [] => ([], [])
  | c :: cs =>
    if isWordChar c then
      let p := takeWordChars cs
      (c :: p.1, p.2)
    else ([], c :: cs)

/-- Take the `(?:\.\w+)*` continuation of a dotted path: a dot is
consumed only when a word character follows it. The fuel argument is
bounded below by the input length. -/
def takePathMore : Nat → List Char → List Char × List Char
  | 0, cs => ([], cs)
  | fuel + 1, cs =>
    match cs with
    | '.' :: c :: rest =>
      if isWordChar c then
        let w := takeWordChars (c :: rest)
        let m := takePathMore fuel w.2
        ('.' :: (w.1 ++ m.1), m.2)
      else ([], cs)
    | _ => ([], cs)

/-- The global replacement
`condition.replace(/data\.(\w+(?:\.\w+)*)/g, ...)`: every occurrence of
`data.` followed by a dotted word path is replaced by the JSON
serialization of the resolved value (`String(undefined)` when
`JSON.stringify` yields no string). The fuel argument is bounded below
by the input length; scanning advances by one character when no match
starts at the current position. -/
def substGo (data : List (String × JVal)) : Nat → List Char → List Char
  | 0, cs => cs
  | fuel + 1, 'd' :: 'a' :: 't' :: 'a' :: '.' :: c :: rest =>
    if isWordChar c then
      let w := takeWordChars (c :: rest)
      let m := takePathMore w.2.length w.2
      let path := String.mk (w.1 ++ m.1)
      let rep := ((jsonStringify (resolveBinding data path)).getD "undefined").data
      rep ++ substGo data fuel m.2
    else
      'd' :: substGo data fuel ('a' :: 't' :: 'a' :: '.' :: c :: rest)
  | fuel + 1, c :: cs => c :: substGo data fuel cs
  | _ + 1, [] => []

/-- The substitution pass of `evaluateCondition`. -/
def substDataRefs (condition : String) (data : List (String × JVal)) : String :=
  String.mk (substGo data (condition.data.length + 1) condition.data)

/-- Whether the first list is a prefix of the second. -/
def listIsPrefixOf : List Char → List Char → Bool
  | [], _ => true
  | _ :: _, [] => false
  | a :: as, b :: bs => a = b && listIsPrefixOf as bs

/-- `s.includes(pat)` on character lists. -/
def containsSubGo (pat : List Char) : List Char → Bool
  | [] => listIsPrefixOf pat []
  | c :: cs => listIsPrefixOf pat (c :: cs) || containsSubGo pat cs

/-- `s.includes(pat)`. -/
def containsSub (s pat : String) : Bool :=
  containsSubGo pat.data s.data

/-- `s.split(pat)` with a nonempty string separator: split at each
non-overlapping occurrence, left to right. The fuel argument is bounded
below by the input length plus one. -/
def splitSubGo (pat : List Char) : Nat → List Char → List Char → List String
  | 0, acc, cs => [String.mk (acc.reverse ++ cs)]
  | fuel + 1, acc, cs =>
    if listIsPrefixOf pat cs then
      String.mk acc.reverse :: splitSubGo pat fuel [] (cs.drop pat.length)
    else
      match cs with
      | [] => [String.mk acc.reverse]
      | c :: cs2 => splitSubGo pat fuel (c :: acc) cs2

/-- `s.split(pat)` for a nonempty separator. -/
def splitOnSub (pat s : String) : List String :=
  splitSubGo pat.data (s.data.length + 1) [] s.data

/-- `s.replace(pat, rep)` with a string pattern: replaces the first
occurrence only. The fuel argument is bounded below by the input
length. -/
def replaceFirstGo (pat rep : List Char) : Nat → List Char → List Char
  | 0, cs => cs
  | fuel + 1, cs =>
    if listIsPrefixOf pat cs then rep ++ cs.drop pat.length
    else
      match cs with
      | [] => []
      | c :: cs2 => c :: replaceFirstGo pat rep fuel cs2

/-- `s.replace(pat, rep)` for string pattern and replacement. -/
def replaceFirstSub (s pat rep : String) : String :=
  String.mk (replaceFirstGo pat.data rep.data (s.data.length + 1) s.data)

/-- A whitespace character for `String.prototype.trim`. -/
def isTrimWs (c : Char) : Bool :=
  c = ' ' || c = '\t' || c = '\n' || c = '\r' || c = Char.ofNat 11 || c = Char.ofNat 12

/-- Drop leading trim whitespace. -/
def dropWsLeft : List Char → List Char
  | [] => []
  | c :: cs => if isTrimWs c then dropWsLeft cs else c :: cs

/-- `s.trim()`: drop whitespace at both ends. -/
def jsTrim (s : String) : String :=
  String.mk (((dropWsLeft s.data).reverse |> dropWsLeft).reverse)

/-- `parts.every(p => JSON.parse(p))`: parse each part in order, stop at
the first falsy value; a parse failure before that point propagates as
a thrown exception. -/
def everyParsedTruthy : List String → Except Unit Bool
  | [] => Except.ok true
  | p :: rest => do
    let v ← jsonParse p
    if truthy v then everyParsedTruthy rest else Except.ok false

/-- `parts.some(p => JSON.parse(p))`: parse each part in order, stop at
the first truthy value. -/
def someParsedTruthy : List String → Except Unit Bool
  | [] => Except.ok false
  | p :: rest => do
    let v ← jsonParse p
    if truthy v then Except.ok true else someParsedTruthy rest

/-- The body of the `try` block of `evaluateCondition`: substitution,
then dispatch on the first operator found among `===`, `!==`, `&&`,
`||`, and otherwise a truthiness lookup of the condition with a leading
`data.` stripped. A thrown `JSON.parse` failure surfaces as
`Except.error`. -/
def evalConditionTry (condition : String) (data : List (String × JVal)) :
    Except Unit Bool :=
  let evaluated := substDataRefs condition data
  if containsSub evaluated "===" then
    let parts := (splitOnSub "===" evaluated).map jsTrim
    do
      let l ← jsonParse (parts.getD 0 "")
      let r ← jsonParse (parts.getD 1 "")
      Except.ok (jsStrictEq l r)
  else if containsSub evaluated "!==" then
    let parts := (splitOnSub "!==" evaluated).map jsTrim
    do
      let l ← jsonParse (parts.getD 0 "")
      let r ← jsonParse (parts.getD 1 "")
      Except.ok (!jsStrictEq l r)
  else if containsSub evaluated "&&" then
    everyParsedTruthy ((splitOnSub "&&" evaluated).map jsTrim)
  else if containsSub evaluated "||" then
    someParsedTruthy ((splitOnSub "||" evaluated).map jsTrim)
  else
    Except.ok (truthy (resolveBinding data (replaceFirstSub condition "data." "")))

/-- `evaluateCondition` from utils.ts: the try body with every thrown
failure caught and mapped to `true`. -/
def evaluateCondition (condition : String) (data : List (String × JVal)) : Bool :=
  match evalConditionTry condition data with
  | Except.ok b => b
  | Except.error _ => true

theorem sanity_evaluateCondition_true :
    evaluateCondition "data.flag === true" [("flag", JVal.bool true)] = true := rfl

theorem sanity_evaluateCondition_false :
    evaluateCondition "data.flag === true" [("flag", JVal.bool false)] = false := rfl

theorem sanity_evaluateCondition_parse_failure :
    evalConditionTry "1 === " [] = Except.error () := rfl

/-!
## schema.ts: validateResponse, validateComponent, validateUpdate

The validators take an arbitrary runtime value. The duplicate-id Set of
`validateResponse` is modelled as a list with SameValueZero membership
(`jsStrictEq`); a JSON-parsed payload is a tree of distinct references,
so comparing object keys false is faithful there.
-/

/-- A validation error record from schema.ts. -/
structure ValidationError where
  path : String
  message : String
  code : String
deriving DecidableEq

/-- A validation result from schema.ts. -/
structure ValidationResult where
  valid : Bool
  errors : List ValidationError
deriving DecidableEq

/-- Whether a value is a nonempty string (`v && typeof v === "string"`). -/
def isTruthyString : JVal → Bool
  | JVal.str s => s != ""
  | _ => false

/-- Whether a value is `undefined`. -/
def isUndef : JVal → Bool
  | JVal.undefined => true
  | _ => false

/-- Whether a value is `null`. -/
def isNull : JVal → Bool
  | JVal.null => true
  | _ => false

/-- `Array.isArray`. -/
def isArray : JVal → Bool
  | JVal.arr _ => true
  | _ => false

mutual
/-- The `String(v)` coercion used by template literals in error
messages. -/
def jsToString : JVal → String
  | JVal.undefined => "undefined"
  | JVal.null => "null"
  | JVal.bool b => cond b "true" "false"
  | JVal.num n => toString n
  | JVal.str s => s
  | JVal.arr xs => String.intercalate "," (jsToStringElems xs)
  | JVal.obj _ => "[object Object]"

/-- Array elements under the `String` coercion (`null` and `undefined`
become empty). -/
def jsToStringElems : List JVal → List String
  | [] => []
  | x :: xs =>
    (if isNullOrUndef x then "" else jsToString x) :: jsToStringElems xs
end

/-- `validateComponent` from schema.ts. -/
def validateComponent (component : JVal) (path : String) : List ValidationError :=
  if !(truthy component && typeofObject component) then
    [⟨path, "Component must be an object", "INVALID_TYPE"⟩]
  else
    (if isTruthyString (getField component "id") then []
     else [⟨path ++ ".id", "Component ID is required and must be a string",
           "MISSING_FIELD"⟩])
    ++ (if isTruthyString (getField component "type") then []
        else [⟨path ++ ".type", "Component type is required and must be a string",
              "MISSING_FIELD"⟩])
    ++ (if !isUndef (getField component "children")
           && !isArray (getField component "children") then
          [⟨path ++ ".children", "Children must be an array of strings",
            "INVALID_TYPE"⟩]
        else [])
    ++ (if !isUndef (getField component "props")
           && (!typeofObject (getField component "props")
               || isNull (getField component "props")) then
          [⟨path ++ ".props", "Props must be an object", "INVALID_TYPE"⟩]
        else [])

/-- The per-component loop of `validateResponse`: collect the errors of
`validateComponent`, report a `DUPLICATE_ID` error whenever an id was
already seen, and accumulate the id Set. -/
def compScan (seen : List JVal) (i : Nat) : List JVal → List ValidationError × List JVal
  | [] => ([], seen)
  | comp :: rest =>
    let path := "components[" ++ toString i ++ "]"
    let ve := validateComponent comp path
    let idGate := truthy comp && typeofObject comp && hasField comp "id"
    let idv := getField comp "id"
    let isDup := idGate && seen.any (fun k => jsStrictEq k idv)
    let de : List ValidationError :=
      if isDup then
        [⟨path ++ ".id", "Duplicate component ID: " ++ jsToString idv, "DUPLICATE_ID"⟩]
      else []
    let seen2 := if idGate && !(seen.any (fun k => jsStrictEq k idv)) then seen ++ [idv] else seen
    let r := compScan seen2 (i + 1) rest
    (ve ++ de ++ r.1, r.2)

/-- The dangling-child-reference errors for one `children` array. -/
def childErrList (ids : List JVal) (i : Nat) : Nat → List JVal → List ValidationError
  | _, [] => []
  | j, ch :: rest =>
    (if ids.any (fun k => jsStrictEq k ch) then []
     else [⟨"components[" ++ toString i ++ "].children[" ++ toString j ++ "]",
           "Child component \"" ++ jsToString ch ++ "\" not found",
           "INVALID_REFERENCE"⟩])
    ++ childErrList ids i (j + 1) rest

/-- The second per-component loop of `validateResponse`: check that every
entry of each `children` array is a known id. -/
def childRefScan (ids : List JVal) : Nat → List JVal → List ValidationError
  | _, [] => []
  | i, comp :: rest =>
    (if truthy comp && typeofObject comp && hasField comp "children" then
       match getField comp "children" with
       | JVal.arr chs => childErrList ids i 0 chs
       | _ => []
     else [])
    ++ childRefScan ids (i + 1) rest

/-- `validateResponse` from schema.ts. -/
def validateResponse (response : JVal) : ValidationResult :=
  if !(truthy response && typeofObject response) then
    ⟨false, [⟨"", "Response must be an object", "INVALID_TYPE"⟩]⟩
  else
    let e1 := if isTruthyString (getField response "version") then []
      else [⟨"version", "Version is required and must be a string", "MISSING_FIELD"⟩]
    let e2 := if isTruthyString (getField response "root") then []
      else [⟨"root", "Root component ID is required and must be a string",
            "MISSING_FIELD"⟩]
    match getField response "components" with
    | JVal.arr comps =>
      let scan := compScan [] 0 comps
      let rootErr : List ValidationError :=
        match getField response "root" with
        | JVal.str s =>
          if s != "" && !(scan.2.any (fun k => jsStrictEq k (JVal.str s))) then
            [⟨"root", "Root component \"" ++ s ++ "\" not found in components",
              "INVALID_REFERENCE"⟩]
          else []
        | _ => []
      let childErrs := childRefScan scan.2 0 comps
      let errors := e1 ++ e2 ++ scan.1 ++ rootErr ++ childErrs
      ⟨errors.isEmpty, errors⟩
    | _ =>
      let errors := e1 ++ e2
        ++ [⟨"components", "Components must be an array", "INVALID_TYPE"⟩]
      ⟨errors.isEmpty, errors⟩

/-- The enumerated operations accepted by `validateUpdate`. -/
def validOperations : List String := ["add", "remove", "update", "replace"]

/-- `validOperations.includes(upd.operation as string)`: the `includes`
comparison is strict equality, so only one of the four exact strings
passes. -/
def opIncluded : JVal → Bool
  | JVal.str s => validOperations.contains s
  | _ => false

/-- `validateUpdate` from schema.ts. -/
def validateUpdate (update : JVal) : ValidationResult :=
  if !(truthy update && typeofObject update) then
    ⟨false, [⟨"", "Update must be an object", "INVALID_TYPE"⟩]⟩
  else
    let e1 := if truthy (getField update "operation")
                 && opIncluded (getField update "operation") then []
      else [⟨"operation",
            "Operation must be one of: " ++ String.intercalate ", " validOperations,
            "INVALID_VALUE"⟩]
    let e2 := if isTruthyString (getField update "targetId") then []
      else [⟨"targetId", "Target ID is required and must be a string", "MISSING_FIELD"⟩]
    let errors := e1 ++ e2
    ⟨errors.isEmpty, errors⟩

/-- `isA2UIResponse` from schema.ts. -/
def isA2UIResponse (value : JVal) : Bool :=
  (validateResponse value).valid

/-- `isA2UIComponent` from schema.ts. -/
def isA2UIComponent (value : JVal) : Bool :=
  (validateComponent value "").isEmpty

/-- `isA2UIUpdate` from schema.ts. -/
def isA2UIUpdate (value : JVal) : Bool :=
  (validateUpdate value).valid

theorem sanity_validateResponse_minimal :
    (validateResponse (JVal.obj
      [("version", JVal.str "0.8"), ("root", JVal.str "r"),
       ("components", JVal.arr
         [JVal.obj [("id", JVal.str "r"), ("type", JVal.str "container"),
                    ("children", JVal.arr [])]]),
       ("data", JVal.obj [])])).valid = true := rfl

theorem sanity_validateResponse_duplicate :
    ((validateResponse (JVal.obj
      [("version", JVal.str "0.8"), ("root", JVal.str "r"),
       ("components", JVal.arr
         [JVal.obj [("id", JVal.str "r"), ("type", JVal.str "container")],
          JVal.obj [("id", JVal.str "r"), ("type", JVal.str "text")]])])).errors.filter
      (fun e => e.code = "DUPLICATE_ID")) =
    [⟨"components[1].id", "Duplicate component ID: r", "DUPLICATE_ID"⟩] := rfl

/-!
## utils.ts: buildComponentTree

The recursion of `buildNode` is not structurally bounded in the source
(a cyclic children graph recurses forever), so it is embedded with a
fuel argument; the termination claim is stated as fuel-independence of
the result above a rank-derived threshold.
-/

/-- `Map#set`: replace the binding at the key, append when absent. -/
def mapSet : List (String × A2UIComponent) → String → A2UIComponent →
    List (String × A2UIComponent)
  | [], k, v => [(k, v)]
  | (k0, v0) :: rest, k, v =>
    if k0 = k then (k0, v) :: rest else (k0, v0) :: mapSet rest k v

/-- The `componentMap` built by `buildComponentTree`: index the
components by id, last occurrence winning. A component without an id
would sit under the key `undefined`, which no string lookup reaches, so
it is skipped. -/
def componentMap (comps : List A2UIComponent) : List (String × A2UIComponent) :=
  comps.foldl
    (fun m c =>
      match c.id with
      | some s => mapSet m s c
      | none => m) []

/-- `Map#get` on the component map. -/
def mapGet (m : List (String × A2UIComponent)) (k : String) : Option A2UIComponent :=
  List.lookup k m

/-- The `ComponentNode` tree shape from utils.ts: a component together
with its resolved child nodes. -/
inductive ComponentNode where
  | mk (component : A2UIComponent) (childNodes : List ComponentNode)

/-- The recursive `buildNode` helper, with fuel: an unresolved id yields
`none` and is skipped by the caller; exhausted fuel also yields `none`
(modelling a recursion that has not bottomed out yet). -/
def buildNodeF (m : List (String × A2UIComponent)) : Nat → String → Option ComponentNode
  | 0, _ => none
  | fuel + 1, id =>
    match mapGet m id with
    | none => none
    | some comp =>
      some (ComponentNode.mk comp ((comp.children.getD []).filterMap (buildNodeF m fuel)))

/-- `buildComponentTree` from utils.ts, with the fuel of the embedded
recursion made explicit. -/
def buildComponentTree (fuel : Nat) (response : A2UIResponse) : Option ComponentNode :=
  buildNodeF (componentMap response.components) fuel response.root

/-- The children-reference edge relation on the component map: there is
an edge from `a` to `b` when the component indexed at `a` lists `b`
among its children. -/
def edgeTo (m : List (String × A2UIComponent)) (a b : String) : Prop :=
  ∃ c, mapGet m a = some c ∧ b ∈ c.children.getD []

/-!
## A heap model for the immutability of applyUpdate

JavaScript objects live on a heap and `applyUpdate` receives a
reference. To state that the function never mutates its input, the
response is modelled at the granularity the function manipulates: a
response record node, its components array node, one node per
component record, and a data record node. `applyUpdateH` mirrors each
object allocation of the source (`{...response}`, the arrays produced
by `filter`/`map`/spread, the component records rebuilt by the map
callbacks, the merged data record): every new value is appended to the
heap and existing cells are never written.
-/

/-- A heap cell: a response record, a components array, a component
record, or a data record. -/
inductive HNode where
  | resp (version : String) (root : String) (compsA : Nat) (dataA : Option Nat)
      (meta : Option JVal)
  | comps (addrs : List Nat)
  | comp (c : A2UIComponent)
  | dataObj (fields : List (String × JVal))

/-- Read a component record at an address. -/
def readCompNode (h : List HNode) (a : Nat) : Option A2UIComponent :=
  match h[a]? with
  | some (HNode.comp c) => some c
  | _ => none

/-- Read the component records behind a list of addresses, keeping the
addresses. -/
def readComps (h : List HNode) : List Nat → Option (List (Nat × A2UIComponent))
  | [] => some []
  | a :: as =>
    match readCompNode h a, readComps h as with
    | some c, some rest => some ((a, c) :: rest)
    | _, _ => none

/-- Read the optional data record. -/
def derefData (h : List HNode) : Option Nat → Option (Option (List (String × JVal)))
  | none => some none
  | some a =>
    match h[a]? with
    | some (HNode.dataObj fs) => some (some fs)
    | _ => none

/-- Observe the response value stored at an address: the deep value a
caller would read through the reference. -/
def derefResponse (h : List HNode) (a : Nat) : Option A2UIResponse :=
  match h[a]? with
  | some (HNode.resp v r ca da meta) =>
    match h[ca]? with
    | some (HNode.comps addrs) =>
      match readComps h addrs, derefData h da with
      | some pairs, some d => some ⟨v, r, pairs.map Prod.snd, d, meta⟩
      | _, _ => none
    | _ => none
  | _ => none

/-- The allocation pass of the `remove` branch: the map callback builds
a fresh component record exactly for the components whose `children`
include the target (`next` is the next fresh address), all other
positions keep their existing reference. -/
def scrubAllocGo (target : String) : Nat → List (Nat × A2UIComponent) →
    List HNode × List Nat
  | _, [] => ([], [])
  | next, (a, c) :: rest =>
    match c.children with
    | some ch =>
      if target ∈ ch then
        let r := scrubAllocGo target (next + 1) rest
        (HNode.comp (scrubChildren target c) :: r.1, next :: r.2)
      else
        let r := scrubAllocGo target next rest
        (r.1, a :: r.2)
    | none =>
      let r := scrubAllocGo target next rest
      (r.1, a :: r.2)

/-- The allocation pass of the `update`/`replace` branches: a fresh
component record is built exactly at the matching positions, all other
positions keep their existing reference. -/
def mapAllocGo (f : A2UIComponent → A2UIComponent) (target : String) :
    Nat → List (Nat × A2UIComponent) → List HNode × List Nat
  | _, [] => ([], [])
  | next, (a, c) :: rest =>
    if c.id = some target then
      let r := mapAllocGo f target (next + 1) rest
      (HNode.comp (f c) :: r.1, next :: r.2)
    else
      let r := mapAllocGo f target next rest
      (r.1, a :: r.2)

/-- The structural phase of `applyUpdateH`: the fresh component records
(allocated from `base` upward), the element addresses of the new
components array, and whether a new components array is allocated at
all (every branch reassigns `newResponse.components` except `add`
without a payload and the untouched default). -/
def structuralPhase (base : Nat) (u : A2UIUpdate)
    (pairs : List (Nat × A2UIComponent)) (addrs : List Nat) :
    List HNode × List Nat × Bool :=
  match u.operation with
  | A2UIOperation.add =>
    match u.component with
    | some c => ([HNode.comp c], addrs ++ [base], true)
    | none => ([], addrs, false)
  | A2UIOperation.remove =>
    let s := scrubAllocGo u.targetId base
      (pairs.filter (fun p => p.2.id ≠ some u.targetId))
    (s.1, s.2, true)
  | A2UIOperation.update =>
    match u.component with
    | some p =>
      let s := mapAllocGo (fun c => spreadMerge c p) u.targetId base pairs
      (s.1, s.2, true)
    | none => ([], addrs, true)
  | A2UIOperation.replace =>
    match u.component with
    | some p =>
      let s := mapAllocGo (fun c => replaceWith c p) u.targetId base pairs
      (s.1, s.2, true)
    | none => ([], addrs, true)

/-- The read-and-build phase of `applyUpdateH`: read the response
record, its components array and the component records behind it, then
compute the list of freshly allocated cells (the component records
rebuilt by the map callbacks, the new components array, the merged data
record, the new response record of `{...response}`) together with the
address of the new response record. `none` models the reference errors
on which the source would throw. Only reads of `h` occur here. -/
def buildUpdateNodes (h : List HNode) (ra : Nat) (u : A2UIUpdate) :
    Option (List HNode × Nat) :=
  match h[ra]? with
  | some (HNode.resp v r ca da meta) =>
    match h[ca]? with
    | some (HNode.comps addrs) =>
      match readComps h addrs with
      | some pairs =>
        let base := h.length
        let s := structuralPhase base u pairs addrs
        let caNew := if s.2.2 then base + s.1.length else ca
        let arrNodes : List HNode := if s.2.2 then [HNode.comps s.2.1] else []
        let afterArr := base + s.1.length + arrNodes.length
        match u.data with
        | some d =>
          let oldFields :=
            match da with
            | some a =>
              match h[a]? with
              | some (HNode.dataObj fs) => fs
              | _ => []
            | none => []
          some (s.1 ++ arrNodes ++ [HNode.dataObj (objMergeFields oldFields d)]
             ++ [HNode.resp v r caNew (some afterArr) meta], afterArr + 1)
        | none =>
          some (s.1 ++ arrNodes ++ [HNode.resp v r caNew da meta], afterArr)
      | none => none
    | _ => none
  | _ => none

/-- `applyUpdate` on the heap: every new record is appended at fresh
addresses at the end of the heap and the address of the new response
record is returned (`none` when the reference structure is broken).
Existing cells are only ever read, never written. -/
def applyUpdateH (h : List HNode) (ra : Nat) (u : A2UIUpdate) :
    List HNode × Option Nat :=
  match buildUpdateNodes h ra u with
  | some p => (h ++ p.1, some p.2)
  | none => (h, none)

/-- `applyUpdateH` only extends the heap: the result heap is the input
heap with new cells appended, in every branch. -/
theorem applyUpdateH_extends (h : List HNode) (ra : Nat) (u : A2UIUpdate) :
    ∃ ext, (applyUpdateH h ra u).1 = h ++ ext := by
  unfold applyUpdateH
  cases buildUpdateNodes h ra u with
  | none => exact ⟨[], by simp⟩
  | some p => exact ⟨p.1, rfl⟩

/-- Lookup into an extended list is unchanged at existing indices. -/
theorem getElem?_append_of_some {α : Type} (l ext : List α) (a : Nat) (x : α)
    (hx : l[a]? = some x) : (l ++ ext)[a]? = some x := by
  have hlt : a < l.length := (List.getElem?_eq_some.1 hx).1
  rw [List.getElem?_append]
  simp [hlt, hx]

/-- Reading a component record is stable under heap extension. -/
theorem readCompNode_mono (h ext : List HNode) (a : Nat) (c : A2UIComponent)
    (hx : readCompNode h a = some c) : readCompNode (h ++ ext) a = some c := by
  unfold readCompNode at hx ⊢
  cases hget : h[a]? with
  | none => rw [hget] at hx; cases hx
  | some node =>
    rw [getElem?_append_of_some _ _ _ _ hget]
    rw [hget] at hx
    exact hx

/-- Reading a list of component records is stable under heap extension. -/
theorem readComps_mono (h ext : List HNode) :
    ∀ (addrs : List Nat) (ps : List (Nat × A2UIComponent)),
      readComps h addrs = some ps → readComps (h ++ ext) addrs = some ps := by
  intro addrs
  induction addrs with
  | nil => intro ps hp; simpa [readComps] using hp
  | cons a as ih =>
    intro ps hp
    rw [readComps] at hp ⊢
    cases hc : readCompNode h a with
    | none => rw [hc] at hp; cases hp
    | some c =>
      rw [hc] at hp
      cases hrest : readComps h as with
      | none => rw [hrest] at hp; cases hp
      | some xs =>
        rw [hrest] at hp
        rw [readCompNode_mono h ext a c hc, ih xs hrest]
        exact hp

/-- Reading the data record is stable under heap extension. -/
theorem derefData_mono (h ext : List HNode) (da : Option Nat)
    (d : Option (List (String × JVal))) (hd : derefData h da = some d) :
    derefData (h ++ ext) da = some d := by
  cases da with
  | none => simpa [derefData] using hd
  | some a =>
    simp only [derefData] at hd ⊢
    cases hget : h[a]? with
    | none => rw [hget] at hd; cases hd
    | some node =>
      rw [getElem?_append_of_some _ _ _ _ hget]
      rw [hget] at hd
      exact hd

/-- The observed response value behind a reference is stable under heap
extension. -/
theorem derefResponse_mono (h ext : List HNode) (a : Nat) (R : A2UIResponse)
    (hR : derefResponse h a = some R) : derefResponse (h ++ ext) a = some R := by
  unfold derefResponse at hR ⊢
  cases hget : h[a]? with
  | none => rw [hget] at hR; cases hR
  | some node =>
    rw [getElem?_append_of_some _ _ _ _ hget]
    rw [hget] at hR
    cases node with
    | resp v r ca da meta =>
      simp only [] at hR ⊢
      cases hca : h[ca]? with
      | none => rw [hca] at hR; cases hR
      | some node2 =>
        rw [getElem?_append_of_some _ _ _ _ hca]
        rw [hca] at hR
        cases node2 with
        | comps addrs =>
          simp only [] at hR ⊢
          cases hps : readComps h addrs with
          | none => rw [hps] at hR; cases hR
          | some pairs =>
            rw [hps] at hR
            rw [readComps_mono h ext addrs pairs hps]
            cases hd : derefData h da with
            | none => rw [hd] at hR; cases hR
            | some d =>
              rw [hd] at hR
              rw [derefData_mono h ext da d hd]
              exact hR
        | resp _ _ _ _ _ => cases hR
        | comp _ => cases hR
        | dataObj _ => cases hR
    | comps _ => cases hR
    | comp _ => cases hR
    | dataObj _ => cases hR

/-- Claim C3: `applyUpdate` never mutates its input response. In the
heap model, where every allocation of the source is mirrored by
appending a fresh cell, the value observed through the input reference
after `applyUpdateH` is exactly the value observed before, for every
operation kind and payload. -/
theorem c3_applyUpdate_never_mutates_input (h : List HNode) (ra : Nat)
    (u : A2UIUpdate) (R : A2UIResponse) (hR : derefResponse h ra = some R) :
    derefResponse (applyUpdateH h ra u).1 ra = some R := by
  obtain ⟨ext, hext⟩ := applyUpdateH_extends h ra u
  rw [hext]
  exact derefResponse_mono h ext ra R hR

/-- Witness for C3: a concrete one-component heap, updated with a
`remove` carrying a data payload; the input reference still observes
the original response value. -/
theorem c3_applyUpdate_never_mutates_input_witness :
    derefResponse
        (applyUpdateH
          [HNode.comp ⟨some "r", some "container", none, some ["x"], none, none, none⟩,
           HNode.comp ⟨some "x", some "text", none, none, none, none, none⟩,
           HNode.comps [0, 1],
           HNode.dataObj [("count", JVal.num 1)],
           HNode.resp "0.8" "r" 2 (some 3) none]
          4
          ⟨A2UIOperation.remove, "x", none, some [("count", JVal.num 2)]⟩).1
        4
      = some ⟨"0.8", "r",
          [⟨some "r", some "container", none, some ["x"], none, none, none⟩,
           ⟨some "x", some "text", none, none, none, none, none⟩],
          some [("count", JVal.num 1)], none⟩ :=
  c3_applyUpdate_never_mutates_input
    [HNode.comp ⟨some "r", some "container", none, some ["x"], none, none, none⟩,
     HNode.comp ⟨some "x", some "text", none, none, none, none, none⟩,
     HNode.comps [0, 1],
     HNode.dataObj [("count", JVal.num 1)],
     HNode.resp "0.8" "r" 2 (some 3) none]
    4
    ⟨A2UIOperation.remove, "x", none, some [("count", JVal.num 2)]⟩
    ⟨"0.8", "r",
     [⟨some "r", some "container", none, some ["x"], none, none, none⟩,
      ⟨some "x", some "text", none, none, none, none, none⟩],
     some [("count", JVal.num 1)], none⟩
    rfl

/-!
## Helper lemmas
-/

/-- Looking up a key just written by `objSet` yields the written value. -/
theorem lookup_objSet (fs : List (String × JVal)) (k : String) (v : JVal) :
    List.lookup k (objSet fs k v) = some v := by
  induction fs with
  | nil => simp [objSet, List.lookup]
  | cons hd tl ih =>
    obtain ⟨k0, v0⟩ := hd
    by_cases hk : k0 = k
    · subst hk
      simp [objSet, List.lookup]
    · have hbeq : (k == k0) = false := beq_eq_false_iff_ne.2 (fun h => hk h.symm)
      simp only [objSet, if_neg hk, List.lookup, hbeq]
      exact ih

/-!
## Claims
-/

/-- The response of the C1 scenario: one button component with
`props.label = "Old"` and `props.disabled = true`. -/
def c1Response : A2UIResponse :=
  ⟨"0.8", "btn",
   [⟨some "btn", some "button",
     some [("label", JVal.str "Old"), ("disabled", JVal.bool true)],
     none, none, none, none⟩],
   none, none⟩

/-- The update of the C1 scenario: an `update` of `btn` whose payload
carries only `props.label = "Go"`. -/
def c1Update : A2UIUpdate :=
  ⟨A2UIOperation.update, "btn",
   some ⟨none, none, some [("label", JVal.str "Go")], none, none, none, none⟩,
   none⟩

/-- Claim C1, counterexample: the claim states that after the C1 update
the component keeps `props.disabled === true` alongside the new label.
It is false: the spread `{...c, ...update.component}` is shallow at the
component level, so the props object of the patch replaces the whole
existing props object and `disabled` is gone. -/
theorem c1_claim_false :
    ¬(((findComponent (applyUpdate c1Response c1Update) "btn").bind
        (fun c => c.props.bind (fun ps => List.lookup "label" ps))
          = some (JVal.str "Go"))
      ∧ ((findComponent (applyUpdate c1Response c1Update) "btn").bind
        (fun c => c.props.bind (fun ps => List.lookup "disabled" ps))
          = some (JVal.bool true))) :=
  fun h => nomatch h.2

/-- Claim C1 (amended): applying the C1 update yields a component whose
props object is exactly the props object of the patch — the label reads
`"Go"` but `disabled` is no longer present, because the merge is shallow
at the top level of the component and the patch props replace the
existing props wholesale. -/
theorem c1_amended_props_replaced :
    ((findComponent (applyUpdate c1Response c1Update) "btn").map (fun c => c.props)
        = some (some [("label", JVal.str "Go")]))
      ∧ ((findComponent (applyUpdate c1Response c1Update) "btn").bind
        (fun c => c.props.bind (fun ps => List.lookup "disabled" ps)) = none) :=
  ⟨rfl, rfl⟩

/-- Claim C2, counterexample: the claim states that
`evaluateCondition("not a valid $$ expr", {})` returns `true`. It is
false: the input contains no recognized operator and no `data.` match,
so no parse is ever attempted and nothing throws — the evaluator falls
through to the truthiness lookup of a missing key and returns `false`. -/
theorem c2_claim_false :
    ¬(evaluateCondition "not a valid $$ expr" [] = true) :=
  fun h => nomatch h

/-- Claim C2 (amended): `evaluateCondition("not a valid $$ expr", {})`
returns `false` (the expression is treated as a path-truthiness lookup
that yields `undefined`); whenever evaluation of a condition actually
throws (any `JSON.parse` failure inside the try body), the failure is
caught and the result is `true` (fail-open). -/
theorem c2_amended_failopen :
    evaluateCondition "not a valid $$ expr" [] = false
    ∧ ∀ (condition : String) (data : List (String × JVal)),
        evalConditionTry condition data = Except.error () →
        evaluateCondition condition data = true := by
  refine ⟨rfl, ?_⟩
  intro condition data h
  unfold evaluateCondition
  rw [h]

/-- Witness for C2 (amended): `"1 === "` makes `JSON.parse` throw on the
empty right-hand side, and the catch maps the failure to `true`. -/
theorem c2_amended_failopen_witness :
    evaluateCondition "1 === " [] = true :=
  c2_amended_failopen.2 "1 === " [] rfl

/-- Claim C5: the setBinding/resolveBinding round trip at path `"a.b"`
recovers the written value for every starting data mapping, the
intermediate mapping being created (or coerced) as needed. -/
theorem c5_roundtrip (data : List (String × JVal)) :
    resolveBinding (setBinding data "a.b" (JVal.num 5)) "a.b" = JVal.num 5 := by
  have h1 : setBinding data "a.b" (JVal.num 5)
      = objSet data "a"
          (JVal.obj (objSet
            (jsSpread (jsOr (getField (JVal.obj data) "a") (JVal.obj [])))
            "b" (JVal.num 5))) := rfl
  have h2 : resolveBinding (setBinding data "a.b" (JVal.num 5)) "a.b"
      = resolveParts
          (getField (JVal.obj (setBinding data "a.b" (JVal.num 5))) "a") ["b"] := rfl
  rw [h2]
  conv_lhs => rw [h1]
  simp only [getField, lookup_objSet, Option.getD_some]
  simp only [resolveParts, isNullOrUndef, typeofObject, getField,
    lookup_objSet, Option.getD_some]
  simp

/-- Witness for C5: the round trip at the empty starting mapping. -/
theorem c5_roundtrip_witness :
    resolveBinding (setBinding [] "a.b" (JVal.num 5)) "a.b" = JVal.num 5 :=
  c5_roundtrip []

/-- Claim C9: `applyUpdate` preserves the `version`, `root` and `meta`
fields of the response for every update; only `components` and `data`
are rebuilt. -/
theorem c9_version_root_meta_preserved (r : A2UIResponse) (u : A2UIUpdate) :
    (applyUpdate r u).version = r.version
    ∧ (applyUpdate r u).root = r.root
    ∧ (applyUpdate r u).meta = r.meta :=
  ⟨rfl, rfl, rfl⟩

/-- Claim C10: under a `replace` whose payload carries an `id`, the
rebuilt component takes the payload id (the spread overrides the seeded
`id: c.id`); the target id is preserved only when the payload omits
`id`. -/
theorem c10_replace_id_override (r : A2UIResponse) (X : String)
    (p : A2UIComponent) (i : Nat) (c : A2UIComponent)
    (hc : r.components[i]? = some c) (hid : c.id = some X) :
    (applyUpdate r ⟨A2UIOperation.replace, X, some p, none⟩).components[i]?
        = some (replaceWith c p)
      ∧ (∀ pid, p.id = some pid → (replaceWith c p).id = some pid)
      ∧ (p.id = none → (replaceWith c p).id = some X) := by
  refine ⟨?_, ?_, ?_⟩
  · simp only [applyUpdate, List.getElem?_map, hc, Option.map_some']
    rw [if_pos hid]
  · intro pid hp
    simp [replaceWith, ov, hp]
  · intro hp
    simp [replaceWith, ov, hp, hid]

/-- Witness for C10: a concrete replace whose payload renames the
component. -/
theorem c10_replace_id_override_witness :
    (applyUpdate
        ⟨"0.8", "btn", [⟨some "btn", some "button", none, none, none, none, none⟩],
         none, none⟩
        ⟨A2UIOperation.replace, "btn",
         some ⟨some "btn2", some "card", none, none, none, none, none⟩,
         none⟩).components[0]?
      = some (replaceWith ⟨some "btn", some "button", none, none, none, none, none⟩
          ⟨some "btn2", some "card", none, none, none, none, none⟩)
    ∧ (replaceWith ⟨some "btn", some "button", none, none, none, none, none⟩
        ⟨some "btn2", some "card", none, none, none, none, none⟩).id = some "btn2" := by
  have h := c10_replace_id_override
    ⟨"0.8", "btn", [⟨some "btn", some "button", none, none, none, none, none⟩],
     none, none⟩ "btn"
    ⟨some "btn2", some "card", none, none, none, none, none⟩ 0
    ⟨some "btn", some "button", none, none, none, none, none⟩ rfl rfl
  exact ⟨h.1, h.2.1 "btn2" rfl⟩

/-- The components list produced by a pure `remove` update: filter out
the target id, then scrub it from every `children` list. -/
theorem applyUpdate_remove_components (r : A2UIResponse) (X : String) :
    (applyUpdate r ⟨A2UIOperation.remove, X, none, none⟩).components
      = (r.components.filter (fun c => c.id ≠ some X)).map (scrubChildren X) := rfl

/-- The response of the C4 counterexample: no component has id `X`, but
one component holds a dangling child reference to `X`. -/
def c4Response : A2UIResponse :=
  ⟨"0.8", "a",
   [⟨some "a", some "container", none, some ["X"], none, none, none⟩],
   none, none⟩

/-- Claim C4, counterexample: the claim states that when no component of
the response has id `X`, a `remove` of `X` leaves the components list
unchanged. It is false: the scrub pass still deletes `X` from the
dangling `children` reference of component `a`. -/
theorem c4_claim_false :
    (∀ c ∈ c4Response.components, c.id ≠ some "X")
    ∧ (applyUpdate c4Response ⟨A2UIOperation.remove, "X", none, none⟩).components
        ≠ c4Response.components := by
  refine ⟨by decide, ?_⟩
  intro h
  exact absurd (congrArg (List.map (fun c => c.children)) h) (by decide)

/-- Claim C4 (amended): a `remove` of `X` leaves no component with id
`X` and no `children` entry equal to `X`; and the components list is
unchanged when no component of the input has id `X` AND no component
lists `X` among its children (with a dangling reference to `X` present,
the scrub still rewrites the referencing component). -/
theorem c4_amended_remove (r : A2UIResponse) (X : String) :
    (∀ c ∈ (applyUpdate r ⟨A2UIOperation.remove, X, none, none⟩).components,
        c.id ≠ some X ∧ ∀ ch, c.children = some ch → X ∉ ch)
    ∧ ((∀ c ∈ r.components, c.id ≠ some X ∧ ∀ ch, c.children = some ch → X ∉ ch) →
        (applyUpdate r ⟨A2UIOperation.remove, X, none, none⟩).components
          = r.components) := by
  constructor
  · intro c hc
    rw [applyUpdate_remove_components, List.mem_map] at hc
    obtain ⟨c0, hc0, rfl⟩ := hc
    rw [List.mem_filter] at hc0
    have hid : c0.id ≠ some X := by simpa using hc0.2
    cases hch : c0.children with
    | none =>
      refine ⟨by simpa [scrubChildren, hch] using hid, ?_⟩
      intro ch h
      rw [scrubChildren, hch] at h
      exact absurd h (by simp [hch])
    | some ch =>
      by_cases hmem : X ∈ ch
      · refine ⟨by simpa [scrubChildren, hch, hmem] using hid, ?_⟩
        intro ch2 h2
        simp only [scrubChildren, hch, if_pos hmem, Option.some.injEq] at h2
        subst h2
        simp
      · refine ⟨by simpa [scrubChildren, hch, hmem] using hid, ?_⟩
        intro ch2 h2
        simp only [scrubChildren, hch, if_neg hmem, Option.some.injEq] at h2
        subst h2
        exact hmem
  · intro hall
    rw [applyUpdate_remove_components]
    have hfilter : r.components.filter (fun c => c.id ≠ some X) = r.components := by
      rw [List.filter_eq_self]
      intro c hc
      simpa using (hall c hc).1
    rw [hfilter]
    conv_rhs => rw [(List.map_id r.components).symm]
    apply List.map_congr_left
    intro c hc
    cases hch : c.children with
    | none => simp [scrubChildren, hch]
    | some ch => simp [scrubChildren, hch, (hall c hc).2 ch hch]

/-- Witness for C4 (amended): removing an id that occurs nowhere, not
even as a child reference, leaves the components list unchanged. -/
theorem c4_amended_remove_witness :
    (applyUpdate
        ⟨"0.8", "a",
         [⟨some "a", some "container", none, some ["b"], none, none, none⟩,
          ⟨some "b", some "text", none, none, none, none, none⟩], none, none⟩
        ⟨A2UIOperation.remove, "X", none, none⟩).components
      = [⟨some "a", some "container", none, some ["b"], none, none, none⟩,
         ⟨some "b", some "text", none, none, none, none, none⟩] :=
  (c4_amended_remove
    ⟨"0.8", "a",
     [⟨some "a", some "container", none, some ["b"], none, none, none⟩,
      ⟨some "b", some "text", none, none, none, none, none⟩], none, none⟩ "X").2
    (by decide)

/-- The truthiness-and-enumeration check of `validateUpdate` on the
`operation` field characterized: it passes exactly for the four
enumerated operation strings. -/
theorem truthy_opIncluded_iff (v : JVal) :
    (truthy v && opIncluded v) = true
      ↔ ∃ s, v = JVal.str s ∧ s ∈ validOperations := by
  cases v with
  | str s =>
    constructor
    · intro h
      rw [Bool.and_eq_true] at h
      refine ⟨s, rfl, ?_⟩
      have h2 := h.2
      simp only [opIncluded] at h2
      simpa using h2
    · rintro ⟨t, ht, hmem⟩
      injection ht with ht
      subst ht
      simp only [validOperations, List.mem_cons, List.not_mem_nil, or_false] at hmem
      rcases hmem with rfl | rfl | rfl | rfl <;> decide
  | undefined => simp [truthy, opIncluded]
  | null => simp [truthy, opIncluded]
  | bool b => simp [truthy, opIncluded]
  | num n => simp [truthy, opIncluded]
  | arr xs => simp [truthy, opIncluded]
  | obj fs => simp [truthy, opIncluded]

/-- The check of `validateUpdate` on `targetId` characterized: it
passes exactly for nonempty strings. -/
theorem isTruthyString_iff (v : JVal) :
    isTruthyString v = true ↔ ∃ s, v = JVal.str s ∧ s ≠ "" := by
  cases v <;> simp [isTruthyString]

/-- Claim C8: `validateUpdate(u).valid` is true exactly when `u` carries
an `operation` field equal to one of the four enumerated strings and a
`targetId` field holding a nonempty string (so an empty-string
`targetId` is invalid, and a non-object `u`, whose field reads are all
`undefined`, is invalid). -/
theorem c8_validateUpdate_valid_iff (u : JVal) :
    (validateUpdate u).valid = true
      ↔ ((∃ s, getField u "operation" = JVal.str s ∧ s ∈ validOperations)
         ∧ (∃ t, getField u "targetId" = JVal.str t ∧ t ≠ "")) := by
  cases u with
  | undefined =>
    rw [show (validateUpdate JVal.undefined).valid = false from rfl]
    simp [getField]
  | null =>
    rw [show (validateUpdate JVal.null).valid = false from rfl]
    simp [getField]
  | bool b =>
    cases b with
    | true =>
      rw [show (validateUpdate (JVal.bool true)).valid = false from rfl]
      simp [getField]
    | false =>
      rw [show (validateUpdate (JVal.bool false)).valid = false from rfl]
      simp [getField]
  | num n =>
    constructor
    · intro h
      exfalso
      revert h
      simp [validateUpdate, getField, truthy, typeofObject]
    · rintro ⟨⟨s, hs, _⟩, _⟩
      exact absurd hs (by simp [getField])
  | str s =>
    constructor
    · intro h
      exfalso
      revert h
      simp [validateUpdate, getField, truthy, typeofObject]
    · rintro ⟨⟨t, ht, _⟩, _⟩
      exact absurd ht (by simp [getField])
  | arr xs =>
    constructor
    · intro h
      exfalso
      revert h
      simp [validateUpdate, getField, truthy, typeofObject, opIncluded,
        isCanonicalIndex]
    · rintro ⟨⟨t, ht, _⟩, _⟩
      exact absurd ht (by simp [getField, isCanonicalIndex])
  | obj fields =>
    rw [show (validateUpdate (JVal.obj fields)).valid
        = ((if truthy (getField (JVal.obj fields) "operation")
               && opIncluded (getField (JVal.obj fields) "operation")
            then ([] : List ValidationError)
            else [⟨"operation",
                  "Operation must be one of: " ++ String.intercalate ", " validOperations,
                  "INVALID_VALUE"⟩])
           ++ (if isTruthyString (getField (JVal.obj fields) "targetId")
               then ([] : List ValidationError)
               else [⟨"targetId", "Target ID is required and must be a string",
                     "MISSING_FIELD"⟩])).isEmpty from rfl]
    rw [List.isEmpty_iff, List.append_eq_nil]
    constructor
    · rintro ⟨h1, h2⟩
      refine ⟨(truthy_opIncluded_iff _).1 ?_, (isTruthyString_iff _).1 ?_⟩
      · by_contra hcon
        rw [if_neg hcon] at h1
        exact List.cons_ne_nil _ _ h1
      · by_contra hcon
        rw [if_neg hcon] at h2
        exact List.cons_ne_nil _ _ h2
    · rintro ⟨hop, htid⟩
      rw [if_pos ((truthy_opIncluded_iff _).2 hop),
        if_pos ((isTruthyString_iff _).2 htid)]
      exact ⟨rfl, rfl⟩

/-- Witness for C8: a well-formed update validates, via the
characterization applied at a concrete object. -/
theorem c8_validateUpdate_valid_iff_witness :
    (validateUpdate (JVal.obj
      [("operation", JVal.str "add"), ("targetId", JVal.str "x")])).valid = true :=
  (c8_validateUpdate_valid_iff
    (JVal.obj [("operation", JVal.str "add"), ("targetId", JVal.str "x")])).2
    ⟨⟨"add", rfl, by simp [validOperations]⟩, ⟨"x", rfl, by decide⟩⟩

/-- Helper for C7: with a rank function that strictly decreases along
every children edge, `buildNodeF` is fuel-independent once the fuel
exceeds the rank of the starting id. -/
theorem buildNodeF_stable (m : List (String × A2UIComponent)) (rank : String → Nat)
    (hr : ∀ a b, edgeTo m a b → rank b < rank a) :
    ∀ k id f g, rank id ≤ k → rank id < f → rank id < g →
      buildNodeF m f id = buildNodeF m g id := by
  intro k
  induction k using Nat.strong_induction_on with
  | _ k ih =>
    intro id f g hk hf hg
    obtain ⟨f2, rfl⟩ : ∃ f2, f = f2 + 1 := ⟨f - 1, by omega⟩
    obtain ⟨g2, rfl⟩ : ∃ g2, g = g2 + 1 := ⟨g - 1, by omega⟩
    simp only [buildNodeF]
    cases hmg : mapGet m id with
    | none => rfl
    | some comp =>
      have hch : ∀ b ∈ comp.children.getD [],
          buildNodeF m f2 b = buildNodeF m g2 b := by
        intro b hb
        have hrb := hr _ _ ⟨comp, hmg, hb⟩
        exact ih (rank b) (by omega) b f2 g2 le_rfl (by omega) (by omega)
      simp only []
      rw [List.filterMap_congr hch]

/-- Claim C7: when the children-reference graph of the response is
acyclic — witnessed by a rank function strictly decreasing along every
children edge, which every finite acyclic graph admits — the recursion
of `buildComponentTree` terminates: its fuel-indexed embedding computes
the same tree for every fuel above the rank of the root, so the
unbounded source recursion bottoms out. -/
theorem c7_buildComponentTree_terminates (r : A2UIResponse) (rank : String → Nat)
    (hr : ∀ a b, edgeTo (componentMap r.components) a b → rank b < rank a)
    (f g : Nat) (hf : rank r.root < f) (hg : rank r.root < g) :
    buildComponentTree f r = buildComponentTree g r :=
  buildNodeF_stable (componentMap r.components) rank hr (rank r.root) r.root f g
    le_rfl hf hg

/-- Witness for C7: a one-component acyclic response, with the constant
zero rank. -/
theorem c7_buildComponentTree_terminates_witness :
    buildComponentTree 2
        ⟨"0.8", "r", [⟨some "r", some "container", none, some [], none, none, none⟩],
         none, none⟩
      = buildComponentTree 3
        ⟨"0.8", "r", [⟨some "r", some "container", none, some [], none, none, none⟩],
         none, none⟩ := by
  apply c7_buildComponentTree_terminates _ (fun _ => 0)
  · rintro a b ⟨c, hgc, hmem⟩
    exfalso
    have hc : c.children = some [] := by
      revert hgc
      simp only [componentMap, List.foldl, mapGet, mapSet, List.lookup]
      cases h : (a == "r") with
      | true =>
        intro hgc
        injection hgc with hgc
        rw [(hgc.symm)]
      | false => intro hgc; cases hgc
    rw [hc] at hmem
    simp at hmem
  · decide
  · decide

/-- The duplicate error emitted for id `s` at occurrence index `i`. -/
def mkDupErr (s : String) (i : Nat) : ValidationError :=
  ⟨("components[" ++ toString i ++ "]") ++ ".id",
   "Duplicate component ID: " ++ s, "DUPLICATE_ID"⟩

/-- Whether an error is the `DUPLICATE_ID` report for the id `s`. -/
def isDupErrFor (s : String) (e : ValidationError) : Bool :=
  decide (e.code = "DUPLICATE_ID" ∧ e.message = "Duplicate component ID: " ++ s)

/-- The indices (counting from `k`) of the components whose `id` field
is the string `s`, under the SameValueZero test used by the id Set. -/
def occIndicesFrom (s : String) : Nat → List JVal → List Nat
  | _, [] => []
  | k, c :: rest =>
    if jsStrictEq (getField c "id") (JVal.str s) then
      k :: occIndicesFrom s (k + 1) rest
    else occIndicesFrom s (k + 1) rest

/-- The duplicate message determines the id (string append is left
cancellative). -/
theorem dup_message_inj (t s : String) :
    ("Duplicate component ID: " ++ t = "Duplicate component ID: " ++ s) ↔ t = s := by
  constructor
  · intro h
    have hd := congrArg String.data h
    simp only [String.data_append] at hd
    exact String.ext (List.append_cancel_left hd)
  · intro h
    rw [h]

/-- `validateComponent` never reports a `DUPLICATE_ID` error. -/
theorem validateComponent_no_dup (s : String) (comp : JVal) (path : String) :
    (validateComponent comp path).filter (isDupErrFor s) = [] := by
  unfold validateComponent
  split_ifs <;> simp [isDupErrFor]

/-- `childErrList` never reports a `DUPLICATE_ID` error. -/
theorem childErrList_no_dup (s : String) (ids : List JVal) (i : Nat) :
    ∀ (j : Nat) (chs : List JVal),
      (childErrList ids i j chs).filter (isDupErrFor s) = [] := by
  intro j chs
  induction chs generalizing j with
  | nil => rfl
  | cons ch rest ih =>
    simp only [childErrList, List.filter_append, ih, List.append_nil]
    split_ifs <;> simp [isDupErrFor]

/-- `childRefScan` never reports a `DUPLICATE_ID` error. -/
theorem childRefScan_no_dup (s : String) (ids : List JVal) :
    ∀ (i : Nat) (comps : List JVal),
      (childRefScan ids i comps).filter (isDupErrFor s) = [] := by
  intro i comps
  induction comps generalizing i with
  | nil => rfl
  | cons c rest ih =>
    simp only [childRefScan, List.filter_append, ih, List.append_nil]
    split_ifs with hgate
    · cases getField c "children" <;> simp [childErrList_no_dup]
    · simp

/-- The `DUPLICATE_ID` errors for id `s` produced by the per-component
scan: one error per occurrence of `s` beyond the first (beyond any
occurrence at all when `s` is already in the incoming Set), carrying the
path of the offending occurrence. -/
theorem compScan_dup_filter (s : String) :
    ∀ (comps : List JVal) (seen : List JVal) (k : Nat),
      (∀ c ∈ comps, ∃ fs t, c = JVal.obj fs ∧ getField c "id" = JVal.str t) →
      ((compScan seen k comps).1.filter (isDupErrFor s))
        = (if seen.any (fun kv => jsStrictEq kv (JVal.str s)) then
             (occIndicesFrom s k comps).map (mkDupErr s)
           else ((occIndicesFrom s k comps).tail).map (mkDupErr s)) := by
  intro comps
  induction comps with
  | nil =>
    intro seen k _
    simp [compScan, occIndicesFrom]
  | cons c rest ih =>
    intro seen k hall
    obtain ⟨fs, t, hc, hid⟩ := hall c (List.mem_cons_self c rest)
    subst hc
    have hrest : ∀ c2 ∈ rest, ∃ fs2 t2, c2 = JVal.obj fs2
        ∧ getField c2 "id" = JVal.str t2 :=
      fun c2 h2 => hall c2 (List.mem_cons_of_mem _ h2)
    have hlook : List.lookup "id" fs = some (JVal.str t) := by
      cases hl : List.lookup "id" fs with
      | none => simp [getField, hl] at hid
      | some v =>
        have hv : v = JVal.str t := by simpa [getField, hl] using hid
        exact congrArg some hv
    have hgate : (truthy (JVal.obj fs) && typeofObject (JVal.obj fs)
        && hasField (JVal.obj fs) "id") = true := by
      simp [truthy, typeofObject, hasField, hlook]
    simp only [compScan, List.filter_append, validateComponent_no_dup,
      List.nil_append, hid, hgate, Bool.true_and]
    rw [ih _ _ hrest]
    by_cases hts : t = s
    · subst hts
      by_cases hA : seen.any (fun kv => jsStrictEq kv (JVal.str t)) = true
      · rw [if_pos hA, if_pos hA]
        rw [show (if (!(seen.any (fun kv => jsStrictEq kv (JVal.str t)))) = true
            then seen ++ [JVal.str t] else seen) = seen from by
          rw [if_neg]; simp [hA]]
        rw [if_pos hA]
        have hkeep : isDupErrFor t
            ⟨"components[" ++ toString k ++ "]" ++ ".id",
             "Duplicate component ID: " ++ t,
             "DUPLICATE_ID"⟩ = true := by
          simp [isDupErrFor]
        have hocc : occIndicesFrom t k (JVal.obj fs :: rest)
            = k :: occIndicesFrom t (k + 1) rest := by
          simp [occIndicesFrom, hid, jsStrictEq]
        rw [hocc]
        simp [List.filter_cons, hkeep, mkDupErr, jsToString]
      · rw [if_neg hA, if_neg hA]
        rw [show (if (!(seen.any (fun kv => jsStrictEq kv (JVal.str t)))) = true
            then seen ++ [JVal.str t] else seen) = seen ++ [JVal.str t] from by
          rw [if_pos]; simp [hA]]
        have hA2 : ((seen ++ [JVal.str t]).any
            (fun kv => jsStrictEq kv (JVal.str t))) = true := by
          simp [List.any_append, jsStrictEq]
        rw [if_pos hA2]
        have hocc : occIndicesFrom t k (JVal.obj fs :: rest)
            = k :: occIndicesFrom t (k + 1) rest := by
          simp [occIndicesFrom, hid, jsStrictEq]
        rw [hocc]
        simp
    · have hts2 : (t == s) = false := beq_eq_false_iff_ne.2 hts
      have hocc : occIndicesFrom s k (JVal.obj fs :: rest)
          = occIndicesFrom s (k + 1) rest := by
        simp [occIndicesFrom, hid, jsStrictEq, hts2]
      rw [hocc]
      have hdrop : ∀ P : String, isDupErrFor s
          ⟨P, "Duplicate component ID: " ++ t,
           "DUPLICATE_ID"⟩ = false := by
        intro P
        simp [isDupErrFor, dup_message_inj]
        exact hts
      by_cases hA : seen.any (fun kv => jsStrictEq kv (JVal.str t)) = true
      · rw [if_pos hA]
        rw [show (if (!(seen.any (fun kv => jsStrictEq kv (JVal.str t)))) = true
            then seen ++ [JVal.str t] else seen) = seen from by
          rw [if_neg]; simp [hA]]
        simp [List.filter_cons, jsToString, hdrop]
      · rw [if_neg hA]
        rw [show (if (!(seen.any (fun kv => jsStrictEq kv (JVal.str t)))) = true
            then seen ++ [JVal.str t] else seen) = seen ++ [JVal.str t] from by
          rw [if_pos]; simp [hA]]
        have hB : ((seen ++ [JVal.str t]).any (fun kv => jsStrictEq kv (JVal.str s)))
            = (seen.any (fun kv => jsStrictEq kv (JVal.str s))) := by
          simp [List.any_append, jsStrictEq, hts2]
        rw [hB]
        simp

/-- Unfolding of `validateResponse` on an object whose `components`
field is an array. -/
theorem validateResponse_obj_errors (fields : List (String × JVal))
    (comps : List JVal)
    (hcomps : getField (JVal.obj fields) "components" = JVal.arr comps) :
    (validateResponse (JVal.obj fields)).errors
      = (if isTruthyString (getField (JVal.obj fields) "version") then []
         else [⟨"version", "Version is required and must be a string",
               "MISSING_FIELD"⟩])
        ++ (if isTruthyString (getField (JVal.obj fields) "root") then []
            else [⟨"root", "Root component ID is required and must be a string",
                  "MISSING_FIELD"⟩])
        ++ (compScan [] 0 comps).1
        ++ (match getField (JVal.obj fields) "root" with
            | JVal.str s0 =>
              if s0 != "" && !((compScan [] 0 comps).2.any
                  (fun kv => jsStrictEq kv (JVal.str s0))) then
                [⟨"root", "Root component \"" ++ s0 ++ "\" not found in components",
                  "INVALID_REFERENCE"⟩]
              else []
            | _ => [])
        ++ childRefScan (compScan [] 0 comps).2 0 comps := by
  unfold validateResponse
  rw [hcomps]
  rfl

/-- Claim C6: for a Response object whose components all carry string
ids, the `DUPLICATE_ID` errors that `validateResponse` reports for an
id `s` are exactly one error per occurrence of `s` beyond the first,
each carrying the path of the offending occurrence; in particular their
count is the number of occurrences minus one. -/
theorem c6_duplicate_id_errors (fields : List (String × JVal)) (comps : List JVal)
    (s : String)
    (hcomps : getField (JVal.obj fields) "components" = JVal.arr comps)
    (hids : ∀ c ∈ comps, ∃ fs t, c = JVal.obj fs ∧ getField c "id" = JVal.str t) :
    ((validateResponse (JVal.obj fields)).errors.filter (isDupErrFor s))
        = ((occIndicesFrom s 0 comps).tail).map (mkDupErr s)
      ∧ ((validateResponse (JVal.obj fields)).errors.filter (isDupErrFor s)).length
        = (occIndicesFrom s 0 comps).length - 1 := by
  have hmain := compScan_dup_filter s comps [] 0 hids
  rw [List.any_nil] at hmain
  rw [if_neg (by simp)] at hmain
  have hfilter : ((validateResponse (JVal.obj fields)).errors.filter (isDupErrFor s))
      = ((occIndicesFrom s 0 comps).tail).map (mkDupErr s) := by
    rw [validateResponse_obj_errors fields comps hcomps]
    simp only [List.filter_append]
    rw [hmain, childRefScan_no_dup]
    rw [show ((if isTruthyString (getField (JVal.obj fields) "version") then []
        else [(⟨"version", "Version is required and must be a string",
              "MISSING_FIELD"⟩ : ValidationError)]).filter (isDupErrFor s)) = []
      from by split_ifs <;> simp [isDupErrFor]]
    rw [show ((if isTruthyString (getField (JVal.obj fields) "root") then []
        else [(⟨"root", "Root component ID is required and must be a string",
              "MISSING_FIELD"⟩ : ValidationError)]).filter (isDupErrFor s)) = []
      from by split_ifs <;> simp [isDupErrFor]]
    have hde : ∀ s0 : String, isDupErrFor s
        ⟨"root", "Root component \"" ++ s0 ++ "\" not found in components",
         "INVALID_REFERENCE"⟩ = false := fun s0 => by simp [isDupErrFor]
    cases getField (JVal.obj fields) "root" with
    | str s0 =>
      simp only []
      split_ifs <;> simp [hde]
    | undefined => simp
    | null => simp
    | bool b => simp
    | num n => simp
    | arr xs => simp
    | obj fs => simp
  refine ⟨hfilter, ?_⟩
  rw [hfilter]
  simp [List.length_map, List.length_tail]

/-- Witness for C6: the id `a` occurs twice, at indices 0 and 1; the
single duplicate error points at index 1. -/
theorem c6_duplicate_id_errors_witness :
    ((validateResponse (JVal.obj
        [("version", JVal.str "0.8"), ("root", JVal.str "a"),
         ("components", JVal.arr
           [JVal.obj [("id", JVal.str "a"), ("type", JVal.str "x")],
            JVal.obj [("id", JVal.str "a"), ("type", JVal.str "y")],
            JVal.obj [("id", JVal.str "b"), ("type", JVal.str "z")]])])).errors.filter
        (isDupErrFor "a"))
      = ((occIndicesFrom "a" 0
           [JVal.obj [("id", JVal.str "a"), ("type", JVal.str "x")],
            JVal.obj [("id", JVal.str "a"), ("type", JVal.str "y")],
            JVal.obj [("id", JVal.str "b"), ("type", JVal.str "z")]]).tail).map
          (mkDupErr "a") := by
  have h := c6_duplicate_id_errors
    [("version", JVal.str "0.8"), ("root", JVal.str "a"),
     ("components", JVal.arr
       [JVal.obj [("id", JVal.str "a"), ("type", JVal.str "x")],
        JVal.obj [("id", JVal.str "a"), ("type", JVal.str "y")],
        JVal.obj [("id", JVal.str "b"), ("type", JVal.str "z")]])]
    [JVal.obj [("id", JVal.str "a"), ("type", JVal.str "x")],
     JVal.obj [("id", JVal.str "a"), ("type", JVal.str "y")],
     JVal.obj [("id", JVal.str "b"), ("type", JVal.str "z")]]
    "a" rfl ?hids
  · exact h.1
  case hids =>
    intro c hc
    simp only [List.mem_cons, List.not_mem_nil, or_false] at hc
    rcases hc with rfl | rfl | rfl
    · exact ⟨_, "a", rfl, rfl⟩
    · exact ⟨_, "a", rfl, rfl⟩
    · exact ⟨_, "b", rfl, rfl⟩
